import Mathlib

/-!
Verification of the multimodal message rendering engine and its
collaborators (model capability lookup, DHPR dataset loading).

The renderer (`render_message_content`, `substitute`, `_flatten_to_text`)
ships only with its unit tests in this snapshot, so its definitions are
modelled from the specification; the capability oracle
(`model_capabilities.py`) and the dataset loader (`driving_hazard.py`)
are translated from the source, with the external collaborators
(litellm, HuggingFace, PIL image encoding, the opik client) abstracted
as explicit parameters.
-/

namespace Opik

/-! ## Template substitutor (modelled from the spec) -/

/-- The literal left-brace character. -/
def lbrace : Char := Char.ofNat 123

/-- The literal right-brace character. -/
def rbrace : Char := Char.ofNat 125

/-- State of the single-pass mustache scanner: outside any placeholder,
after one opening brace, inside a placeholder name, or after one closing
brace inside a placeholder. -/
inductive ScanState where
  | out
  | open1
  | inName (acc : List Char)
  | close1 (acc : List Char)
deriving Repr, DecidableEq

/-- Modelled from the spec: single-pass scan of the text for
placeholders delimited by double braces. A placeholder whose inner name
matches a key of the variable map is replaced (braces included) by that
key value; a placeholder with no matching key, and any malformed or
unclosed placeholder, is emitted verbatim. Substituted values are not
rescanned (single-pass). -/
def scanSub (vars : List (String × String)) : ScanState → List Char → List Char
  | .out, [] => []
  | .out, c :: rest =>
      if c = lbrace then scanSub vars .open1 rest
      else c :: scanSub vars .out rest
  | .open1, [] => [lbrace]
  | .open1, c :: rest =>
      if c = lbrace then scanSub vars (.inName []) rest
      else lbrace :: c :: scanSub vars .out rest
  | .inName acc, [] => lbrace :: lbrace :: acc
  | .inName acc, c :: rest =>
      if c = rbrace then scanSub vars (.close1 acc) rest
      else scanSub vars (.inName (acc ++ [c])) rest
  | .close1 acc, [] => lbrace :: lbrace :: acc ++ [rbrace]
  | .close1 acc, c :: rest =>
      if c = rbrace then
        match vars.lookup (String.mk acc) with
        | some v => v.data ++ scanSub vars .out rest
        | none => lbrace :: lbrace :: acc ++ rbrace :: rbrace :: scanSub vars .out rest
      else scanSub vars (.inName (acc ++ [rbrace, c])) rest

/-- Modelled from the spec: mustache variable interpolation over a text
fragment. -/
def substituteMustache (text : String) (vars : List (String × String)) : String :=
  String.mk (scanSub vars .out text.data)

/-- Modelled from the spec: `substitute(text, variables, templateType)`.
Only the default `"mustache"` template type performs substitution; any
other template type (including `"f-string"`) falls back to returning the
original text unchanged, never raising. -/
def substitute (text : String) (vars : List (String × String)) (tt : String) : String :=
  if tt = "mustache" then substituteMustache text vars else text

/-! ## Content data model (modelled from the spec) -/

/-- Modelled from the spec: one item of a structured content sequence as
received from the caller. `invalid` stands for any item that is not a
well-formed content-part record (not a record at all, or an unknown
`type` tag). -/
inductive RawItem where
  | textPart (text : String)
  | imagePart (url : String) (detail : Option String)
  | invalid
deriving Repr, DecidableEq

/-- Modelled from the spec: a validated, rendered content part. -/
inductive ContentPart where
  | text (t : String)
  | image (url : String) (detail : Option String)
deriving Repr, DecidableEq

/-- Modelled from the spec: `MessageContent` is a plain string or an
ordered sequence of (possibly malformed) content parts. -/
inductive MessageContent where
  | str (s : String)
  | parts (items : List RawItem)
deriving Repr, DecidableEq

/-- Modelled from the spec: the renderer output, a plain string or an
ordered sequence of rendered parts. -/
inductive RenderedContent where
  | str (s : String)
  | parts (ps : List ContentPart)
deriving Repr, DecidableEq

/-- Modelled from the spec: validate and render one sequence item. A
text part has its text substituted; an image part has its url
substituted and its optional `detail` passed through unchanged; an
invalid item is discarded. -/
def renderItem (vars : List (String × String)) (tt : String) : RawItem → Option ContentPart
  | .textPart t => some (.text (substitute t vars tt))
  | .imagePart u d => some (.image (substitute u vars tt) d)
  | .invalid => none

/-- The opening image sentinel. -/
def imageOpen : String := "<<<image>>>"

/-- The closing image sentinel. -/
def imageClose : String := "<<</image>>>"

/-- Modelled from the spec: the text fragment contributed by one part
during flattening. An empty text and an empty image url contribute
nothing at all. -/
def fragmentOf : ContentPart → Option (List Char)
  | .text t => if t = "" then none else some t.data
  | .image url _ => if url = "" then none else some (imageOpen.data ++ url.data ++ imageClose.data)

/-- The double-newline separator used when joining fragments. -/
def sepChars : List Char := "\n\n".data

/-- Modelled from the spec: join fragments with the separator, yielding
the empty list when there is no fragment. -/
def joinSep : List (List Char) → List Char
  | [] => []
  | [f] => f
  | f :: g :: fs => f ++ sepChars ++ joinSep (g :: fs)

/-- Modelled from the spec: `_flatten_to_text(parts)` — one fragment per
retained part, in order, joined with a double newline. -/
def flatten_to_text (parts : List ContentPart) : String :=
  String.mk (joinSep (parts.filterMap fragmentOf))

/-- Modelled from the spec:
`render_message_content(content, variables, supports_vision, template_type)`.
A plain string is substituted directly with no vision branching; a
sequence is validated and rendered per item, then returned structured
when vision is supported and flattened to a single string otherwise. -/
def render_message_content (content : MessageContent) (vars : List (String × String))
    (sv : Bool) (tt : String) : RenderedContent :=
  match content with
  | .str s => .str (substitute s vars tt)
  | .parts items =>
      if sv then .parts (items.filterMap (renderItem vars tt))
      else .str (flatten_to_text (items.filterMap (renderItem vars tt)))

/-! ## Token view of template texts, used to state the substitutor
contract -/

/-- A token of a template text: a literal run of characters, or a
placeholder with the given inner name. -/
inductive Tok where
  | lit (s : String)
  | ph (nm : String)
deriving Repr, DecidableEq

/-- The raw characters of one token: a placeholder renders as its name
wrapped in double braces. -/
def tokRawChars : Tok → List Char
  | .lit s => s.data
  | .ph nm => lbrace :: lbrace :: (nm.data ++ [rbrace, rbrace])

/-- The substituted characters of one token: a placeholder whose name
matches a key becomes that key value; an unmatched placeholder stays
verbatim. -/
def tokSubChars (vars : List (String × String)) : Tok → List Char
  | .lit s => s.data
  | .ph nm =>
      match vars.lookup nm with
      | some v => v.data
      | none => lbrace :: lbrace :: (nm.data ++ [rbrace, rbrace])

/-- The raw characters of a token list. -/
def rawChars (toks : List Tok) : List Char :=
  toks.foldr (fun t acc => tokRawChars t ++ acc) []

/-- The substituted characters of a token list. -/
def subChars (vars : List (String × String)) (toks : List Tok) : List Char :=
  toks.foldr (fun t acc => tokSubChars vars t ++ acc) []

/-- Well-formedness of one token: a literal holds no opening brace and a
placeholder name holds no closing brace. -/
def wfTok : Tok → Bool
  | .lit s => s.data.all (fun c => c != lbrace)
  | .ph nm => nm.data.all (fun c => c != rbrace)

/-- Well-formedness of a token list. -/
def wfToks (toks : List Tok) : Bool := toks.all wfTok

/-! ## Helpers for stating the claims -/

/-- The sublist `sub` occurs contiguously inside `whole`. -/
def appearsIn (sub whole : List Char) : Prop :=
  ∃ pre post, whole = pre ++ sub ++ post

/-- An item is valid when it is a well-formed content-part record. -/
def isValidItem : RawItem → Bool
  | .invalid => false
  | _ => true

/-- Rendering of one valid item (the value on `invalid` is irrelevant:
it sits behind a validity filter in every statement using it). -/
def renderValidItem (vars : List (String × String)) (tt : String) : RawItem → ContentPart
  | .textPart t => .text (substitute t vars tt)
  | .imagePart u d => .image (substitute u vars tt) d
  | .invalid => .text ""

/-- Correspondence between an input item and an output part: same shape,
text and url substituted, `detail` passed through unchanged. -/
def partCorresponds (vars : List (String × String)) (tt : String) :
    RawItem → ContentPart → Prop
  | .textPart t, .text t2 => t2 = substitute t vars tt
  | .imagePart u d, .image u2 d2 => u2 = substitute u vars tt ∧ d2 = d
  | _, _ => False

/-- Feed a renderer output back in as renderer input. -/
def reinject : RenderedContent → MessageContent
  | .str s => .str s
  | .parts ps => .parts (ps.map fun p =>
      match p with
      | .text t => RawItem.textPart t
      | .image u d => RawItem.imagePart u d)

/-- Every text-bearing field of the item is a fixed point of
substitution. -/
def itemFixed (vars : List (String × String)) (tt : String) : RawItem → Bool
  | .textPart t => substitute t vars tt == t
  | .imagePart u _ => substitute u vars tt == u
  | .invalid => true

/-- Every text-bearing field of the content is a fixed point of
substitution. -/
def contentFixed (vars : List (String × String)) (tt : String) : MessageContent → Bool
  | .str s => substitute s vars tt == s
  | .parts items => items.all (itemFixed vars tt)

/-! ## Model capability lookup (translated from
`opik/evaluation/models/model_capabilities.py`) -/

/-- Outcome of the external litellm vision check: it returns true,
returns false, or raises. -/
inductive LiteLLMResult where
  | yes | no | raised
deriving Repr, DecidableEq

/-- Python `str.lower()` restricted to the character-wise lowering used
by model names. -/
def pyLower (s : String) : String := String.mk (s.data.map Char.toLower)

/-- Python `str.startswith(p)`. -/
def pyStartsWith (s p : String) : Bool := p.data.isPrefixOf s.data

/-- The curated vision-model prefix table, copied from the source. -/
def VISION_MODELS : List String :=
  ["gpt-4-vision", "gpt-4o", "gpt-4o-mini", "gpt-4-turbo", "chatgpt-4o-latest",
   "claude-3", "claude-3-opus", "claude-3-sonnet", "claude-3-haiku",
   "claude-3-5-sonnet", "claude-3-5-haiku",
   "gemini-1.5-pro", "gemini-1.5-flash", "gemini-2.0-flash-exp", "gemini-pro-vision",
   "llama-3.2-11b-vision", "llama-3.2-90b-vision",
   "pixtral", "qwen-vl", "qwen2-vl", "phi-3-vision", "phi-3.5-vision",
   "llava", "cogvlm", "yi-vl"]

/-- Translated from `supports_vision`: a missing or empty model name is
not vision capable; otherwise the litellm check is consulted first and,
when it returns false or raises, the table is scanned for a
case-insensitive name prefix. The mutable global `VISION_MODELS` set is
passed explicitly as `table`. -/
def supports_vision (litellm : String → LiteLLMResult) (table : List String)
    (model_name : Option String) : Bool :=
  match model_name with
  | none => false
  | some name =>
      if name = "" then false
      else
        match litellm name with
        | .yes => true
        | .no => table.any (fun v => pyStartsWith (pyLower name) (pyLower v))
        | .raised => table.any (fun v => pyStartsWith (pyLower name) (pyLower v))

/-- Translated from `add_vision_model`: register one more prefix in the
global table (set insertion, modelled as consing onto the list). -/
def add_vision_model (model_name : String) (table : List String) : List String :=
  model_name :: table

/-! ## DHPR dataset loading (translated from
`opik_optimizer/datasets/driving_hazard.py`, with the opik client, the
HuggingFace download and the image codec abstracted) -/

/-- A raw DHPR item as drawn from the HuggingFace split; `image` is an
abstract decoded image, absent when the record carries no image. -/
structure DhprRawItem where
  question_id : String
  question : String
  hazard : String
  image : Option String
deriving Repr, DecidableEq

/-- A processed DHPR item, as inserted into the opik dataset. -/
structure ProcessedDhprItem where
  question_id : String
  question : String
  image_content : List ContentPart
  image_uri : String
  hazard : String
deriving Repr, DecidableEq

/-- Translated from `_process_dhpr_item`: an item with no image raises a
`ValueError`; otherwise the image is encoded to a data URI (the PIL
resize and the base64 codec are the abstract `encode`) and the
structured OpenAI-style content is produced with detail `"auto"`. -/
def process_dhpr_item (encode : String → String) (item : DhprRawItem) :
    Except String ProcessedDhprItem :=
  match item.image with
  | none => .error ("Item " ++ item.question_id ++ " has no image")
  | some img =>
      .ok { question_id := item.question_id
            question := item.question
            image_content := [ContentPart.text item.question,
                              ContentPart.image (encode img) (some "auto")]
            image_uri := encode img
            hazard := item.hazard }

/-- Outcome of `_load_dhpr_dataset`: the dataset is returned unchanged,
a `ValueError` is raised for an item-count mismatch, a `ValueError` is
raised because no item survived processing, or the processed data is
inserted. -/
inductive DhprResult where
  | returnedUnchanged
  | countMismatchError (found expected : Nat)
  | noItemsError
  | inserted (data : List ProcessedDhprItem)
deriving Repr, DecidableEq

/-- Translated from `_load_dhpr_dataset`: with `existing` the item count
of the fetched dataset and `source` the HuggingFace split, return the
dataset unchanged when the count already matches, raise on a non-zero
mismatch before touching the dataset, otherwise process the first
`actual_nb_items` source items — each per-item failure is caught,
warned about and skipped — raise when nothing survived, and insert the
survivors. -/
def load_dhpr_dataset (encode : String → String) (nb_items : Nat) (test_mode : Bool)
    (existing : Nat) (source : List DhprRawItem) : DhprResult :=
  let actual_nb_items := if test_mode then 5 else nb_items
  if existing = actual_nb_items then .returnedUnchanged
  else if existing ≠ 0 then .countMismatchError existing actual_nb_items
  else
    let data := (source.take actual_nb_items).filterMap
      (fun it => (process_dhpr_item encode it).toOption)
    if data.length = 0 then .noItemsError
    else .inserted data

/-! ## Helper lemmas -/

/-- A fragment that belongs to the fragment list occurs contiguously in
the joined output. -/
theorem mem_joinSep_appears (f : List Char) :
    ∀ fs : List (List Char), f ∈ fs → appearsIn f (joinSep fs)
  | [], h => absurd h (List.not_mem_nil f)
  | [g], h => by
      rcases List.mem_singleton.mp h with rfl
      exact ⟨[], [], by simp [joinSep]⟩
  | g :: g2 :: fs, h => by
      rcases List.mem_cons.mp h with rfl | h2
      · exact ⟨[], sepChars ++ joinSep (g2 :: fs), by simp [joinSep, List.append_assoc]⟩
      · rcases mem_joinSep_appears f (g2 :: fs) h2 with ⟨pre, post, hpp⟩
        exact ⟨g ++ sepChars ++ pre, post, by simp [joinSep, hpp, List.append_assoc]⟩

/-- Item rendering is the validity filter followed by the rendering of
valid items. -/
theorem filterMap_renderItem_eq (vars : List (String × String)) (tt : String) :
    ∀ items : List RawItem,
      items.filterMap (renderItem vars tt)
        = (items.filter isValidItem).map (renderValidItem vars tt)
  | [] => rfl
  | it :: items => by
      cases it <;>
        simp [List.filterMap_cons, List.filter_cons, renderItem, isValidItem,
              renderValidItem, filterMap_renderItem_eq vars tt items]

/-- Scanning a brace-free literal emits it unchanged and continues. -/
theorem scanSub_lit (vars : List (String × String)) :
    ∀ lit rest : List Char, (∀ c ∈ lit, c ≠ lbrace) →
      scanSub vars .out (lit ++ rest) = lit ++ scanSub vars .out rest
  | [], _, _ => by simp
  | c :: lit, rest, h => by
      have hc : c ≠ lbrace := h c (List.mem_cons_self c lit)
      have ih := scanSub_lit vars lit rest (fun x hx => h x (List.mem_cons_of_mem c hx))
      simp [scanSub, hc, ih]

/-- Consuming a placeholder name with no closing brace in it, up to its
closing double brace, resolves the placeholder against the variable
map. -/
theorem scanSub_name (vars : List (String × String)) :
    ∀ nm acc rest : List Char, (∀ c ∈ nm, c ≠ rbrace) →
      scanSub vars (.inName acc) (nm ++ rbrace :: rbrace :: rest)
        = (match vars.lookup (String.mk (acc ++ nm)) with
           | some v => v.data ++ scanSub vars .out rest
           | none => lbrace :: lbrace :: (acc ++ nm) ++ rbrace :: rbrace
               :: scanSub vars .out rest)
  | [], acc, rest, _ => by simp [scanSub]
  | c :: nm, acc, rest, h => by
      have hc : c ≠ rbrace := h c (List.mem_cons_self c nm)
      have ih := scanSub_name vars nm (acc ++ [c]) rest
        (fun x hx => h x (List.mem_cons_of_mem c hx))
      have hstep : scanSub vars (.inName acc) ((c :: nm) ++ rbrace :: rbrace :: rest)
          = scanSub vars (.inName (acc ++ [c])) (nm ++ rbrace :: rbrace :: rest) := by
        simp [scanSub, hc]
      rw [hstep, ih]
      simp [List.append_assoc]

/-- On a well-formed token list the scanner substitutes exactly the
matched placeholders and leaves the unmatched ones verbatim. -/
theorem scanSub_tokens (vars : List (String × String)) :
    ∀ toks : List Tok, wfToks toks = true →
      scanSub vars .out (rawChars toks) = subChars vars toks
  | [], _ => rfl
  | Tok.lit s :: toks, h => by
      simp only [wfToks, List.all_cons, Bool.and_eq_true] at h
      have h1 : s.data.all (fun c => c != lbrace) = true := h.1
      have hlit : ∀ c ∈ s.data, c ≠ lbrace := by
        intro c hc
        simpa using List.all_eq_true.mp h1 c hc
      have ih := scanSub_tokens vars toks (by simpa [wfToks] using h.2)
      have hraw : rawChars (Tok.lit s :: toks) = s.data ++ rawChars toks := rfl
      rw [hraw, scanSub_lit vars s.data (rawChars toks) hlit, ih]
      rfl
  | Tok.ph nm :: toks, h => by
      simp only [wfToks, List.all_cons, Bool.and_eq_true] at h
      have h1 : nm.data.all (fun c => c != rbrace) = true := h.1
      have hnm : ∀ c ∈ nm.data, c ≠ rbrace := by
        intro c hc
        simpa using List.all_eq_true.mp h1 c hc
      have ih := scanSub_tokens vars toks (by simpa [wfToks] using h.2)
      have hraw : rawChars (Tok.ph nm :: toks)
          = lbrace :: lbrace :: (nm.data ++ rbrace :: rbrace :: rawChars toks) := by
        simp [rawChars, tokRawChars, List.append_assoc]
      have hsteps : scanSub vars .out (rawChars (Tok.ph nm :: toks))
          = scanSub vars (.inName []) (nm.data ++ rbrace :: rbrace :: rawChars toks) := by
        rw [hraw]; simp [scanSub]
      rw [hsteps, scanSub_name vars nm.data [] (rawChars toks) hnm]
      simp only [List.nil_append]
      have hmk : String.mk nm.data = nm := rfl
      rw [hmk]
      cases hl : vars.lookup nm with
      | some v =>
          simp only [ih]
          have hsub : subChars vars (Tok.ph nm :: toks)
              = tokSubChars vars (Tok.ph nm) ++ subChars vars toks := rfl
          rw [hsub]
          simp [tokSubChars, hl]
      | none =>
          simp only [ih]
          show lbrace :: lbrace :: nm.data ++ rbrace :: rbrace :: subChars vars toks
            = subChars vars (Tok.ph nm :: toks)
          have hsub : subChars vars (Tok.ph nm :: toks)
              = tokSubChars vars (Tok.ph nm) ++ subChars vars toks := rfl
          rw [hsub]
          simp [tokSubChars, hl, List.append_assoc]

/-! ## Claim theorems -/

/-- C1: for every structured content rendered with vision unsupported,
`render_message_content` returns a string (never a sequence), and the
substituted url of every valid image part, when non-empty, appears in
that string wrapped in the image sentinels. -/
theorem flatten_path_returns_string_with_sentinels
    (items : List RawItem) (vars : List (String × String)) (tt : String) :
    render_message_content (.parts items) vars false tt
      = .str (flatten_to_text (items.filterMap (renderItem vars tt)))
    ∧ ∀ (u : String) (d : Option String),
        RawItem.imagePart u d ∈ items → substitute u vars tt ≠ "" →
          appearsIn (imageOpen.data ++ (substitute u vars tt).data ++ imageClose.data)
            (flatten_to_text (items.filterMap (renderItem vars tt))).data := by
  constructor
  · simp [render_message_content]
  · intro u d hmem hne
    have h1 : ContentPart.image (substitute u vars tt) d
        ∈ items.filterMap (renderItem vars tt) :=
      List.mem_filterMap.mpr ⟨RawItem.imagePart u d, hmem, rfl⟩
    have h2 : (imageOpen.data ++ (substitute u vars tt).data ++ imageClose.data)
        ∈ (items.filterMap (renderItem vars tt)).filterMap fragmentOf :=
      List.mem_filterMap.mpr ⟨_, h1, by simp [fragmentOf, hne]⟩
    exact mem_joinSep_appears _ _ h2

/-- C1 witness: the sentinel-wrapped image url appears in the flattened
output for a concrete non-vision render. -/
theorem flatten_path_returns_string_with_sentinels_witness :
    RawItem.imagePart "https://example.com/cat.jpg" none
      ∈ [RawItem.textPart "Analyze this", RawItem.imagePart "https://example.com/cat.jpg" none]
    ∧ substitute "https://example.com/cat.jpg" [] "mustache" ≠ ""
    ∧ appearsIn
        (imageOpen.data ++ (substitute "https://example.com/cat.jpg" [] "mustache").data
          ++ imageClose.data)
        (flatten_to_text
          ([RawItem.textPart "Analyze this",
            RawItem.imagePart "https://example.com/cat.jpg" none].filterMap
            (renderItem [] "mustache"))).data :=
  ⟨by decide, by decide,
    (flatten_path_returns_string_with_sentinels
        [RawItem.textPart "Analyze this", RawItem.imagePart "https://example.com/cat.jpg" none]
        [] "mustache").2
      "https://example.com/cat.jpg" none (by decide) (by decide)⟩

/-- C3: `_flatten_to_text` keeps one fragment per part in order — the
text of a non-empty text part, the sentinel-wrapped url of an image part
with non-empty url, nothing otherwise — joins retained fragments with a
double newline, returns the empty string when every fragment is omitted,
and on the concrete three-part input produces the expected string. -/
theorem flatten_to_text_behavior :
    (∀ parts : List ContentPart, parts.filterMap fragmentOf = [] →
        flatten_to_text parts = "")
    ∧ (∀ (p : ContentPart) (parts : List ContentPart), fragmentOf p = none →
        flatten_to_text (p :: parts) = flatten_to_text parts)
    ∧ (∀ (p : ContentPart) (parts : List ContentPart) (f : List Char),
        fragmentOf p = some f → parts.filterMap fragmentOf = [] →
        (flatten_to_text (p :: parts)).data = f)
    ∧ (∀ (p : ContentPart) (parts : List ContentPart) (f : List Char),
        fragmentOf p = some f → parts.filterMap fragmentOf ≠ [] →
        (flatten_to_text (p :: parts)).data = f ++ sepChars ++ (flatten_to_text parts).data)
    ∧ flatten_to_text [ContentPart.text "A", ContentPart.image "u" none, ContentPart.text "B"]
        = "A\n\n<<<image>>>u<<</image>>>\n\nB" := by
  refine ⟨?_, ?_, ?_, ?_, by decide⟩
  · intro parts h
    simp [flatten_to_text, h, joinSep]
  · intro p parts h
    simp [flatten_to_text, List.filterMap_cons, h]
  · intro p parts f h hrest
    simp [flatten_to_text, List.filterMap_cons, h, hrest, joinSep]
  · intro p parts f h hne
    cases hrest : parts.filterMap fragmentOf with
    | nil => exact absurd hrest hne
    | cons g fs => simp [flatten_to_text, List.filterMap_cons, h, hrest, joinSep]

/-- C3 witness: the join step applies at a concrete part with a retained
fragment followed by a non-empty remainder. -/
theorem flatten_to_text_behavior_witness :
    fragmentOf (ContentPart.text "A") = some "A".data
    ∧ [ContentPart.image "u" none].filterMap fragmentOf ≠ []
    ∧ (flatten_to_text [ContentPart.text "A", ContentPart.image "u" none]).data
        = "A".data ++ sepChars ++ (flatten_to_text [ContentPart.image "u" none]).data :=
  ⟨by decide, by decide,
    flatten_to_text_behavior.2.2.2.1 (ContentPart.text "A") [ContentPart.image "u" none]
      "A".data (by decide) (by decide)⟩

/-- C5: an invalid sequence item contributes nothing to the output on
either branch, the empty sequence renders to the empty sequence under
vision, and the concrete malformed list keeps only its valid text
part. -/
theorem malformed_items_skipped :
    (∀ (b a : List RawItem) (vars : List (String × String)) (sv : Bool) (tt : String),
        render_message_content (.parts (b ++ RawItem.invalid :: a)) vars sv tt
          = render_message_content (.parts (b ++ a)) vars sv tt)
    ∧ (∀ (vars : List (String × String)) (tt : String),
        render_message_content (.parts []) vars true tt = .parts [])
    ∧ render_message_content
        (.parts [RawItem.invalid, RawItem.invalid, RawItem.textPart "Valid"]) [] true "mustache"
        = .parts [ContentPart.text "Valid"] := by
  refine ⟨?_, fun vars tt => rfl, by decide⟩
  intro b a vars sv tt
  have h : (b ++ RawItem.invalid :: a).filterMap (renderItem vars tt)
      = (b ++ a).filterMap (renderItem vars tt) := by
    simp [List.filterMap_append, List.filterMap_cons, renderItem]
  cases sv <;> simp [render_message_content, h]

/-- C7: a template type other than `"mustache"` (for example
`"f-string"`) never raises and performs no substitution, returning the
original text unchanged. -/
theorem unsupported_template_type_noop :
    ∀ (s : String) (vars : List (String × String)) (sv : Bool) (tt : String),
      tt ≠ "mustache" →
        substitute s vars tt = s
        ∧ render_message_content (.str s) vars sv tt = .str s := by
  intro s vars sv tt h
  have hs : substitute s vars tt = s := by simp [substitute, h]
  exact ⟨hs, by simp [render_message_content, hs]⟩

/-- C7 witness: rendering with template type `"f-string"` leaves the
text unchanged. -/
theorem unsupported_template_type_noop_witness :
    ("f-string" : String) ≠ "mustache"
    ∧ substitute "Hello \x7bname\x7d" [("name", "World")] "f-string" = "Hello \x7bname\x7d"
    ∧ render_message_content (.str "Hello \x7bname\x7d") [("name", "World")] false "f-string"
        = .str "Hello \x7bname\x7d" := by
  have h := unsupported_template_type_noop "Hello \x7bname\x7d" [("name", "World")] false
    "f-string" (by decide)
  exact ⟨by decide, h.1, h.2⟩

/-- C2: under vision the output sequence is exactly the valid input
parts, in the original order and count, each rendered in place; and a
valid part always corresponds to its rendering — same shape, text and
url substituted, and the `detail` field, when present, passed through
unchanged. -/
theorem vision_path_preserves_parts
    (items : List RawItem) (vars : List (String × String)) (tt : String) :
    render_message_content (.parts items) vars true tt
      = .parts ((items.filter isValidItem).map (renderValidItem vars tt))
    ∧ ∀ it : RawItem, isValidItem it = true →
        partCorresponds vars tt it (renderValidItem vars tt it) := by
  constructor
  · simp [render_message_content, filterMap_renderItem_eq]
  · intro it h
    cases it with
    | textPart t => simp [partCorresponds, renderValidItem]
    | imagePart u d => simp [partCorresponds, renderValidItem]
    | invalid => simp [isValidItem] at h

/-- C2 witness: an image part with a `detail` field corresponds to its
rendering, the detail unchanged. -/
theorem vision_path_preserves_parts_witness :
    isValidItem (RawItem.imagePart "https://example.com/image.jpg" (some "high")) = true
    ∧ partCorresponds [] "mustache"
        (RawItem.imagePart "https://example.com/image.jpg" (some "high"))
        (renderValidItem [] "mustache"
          (RawItem.imagePart "https://example.com/image.jpg" (some "high"))) :=
  ⟨by decide,
    (vision_path_preserves_parts [] [] "mustache").2
      (RawItem.imagePart "https://example.com/image.jpg" (some "high")) (by decide)⟩

/-- C8: a non-empty model name whose lowercase form starts with the
lowercase form of some entry of `VISION_MODELS` is reported vision
capable whatever the external litellm check does — returns true, returns
false, or raises. -/
theorem supports_vision_prefix_fallback :
    ∀ (litellm : String → LiteLLMResult) (name : String),
      name ≠ "" →
      (∃ v, v ∈ VISION_MODELS ∧ pyStartsWith (pyLower name) (pyLower v) = true) →
      supports_vision litellm VISION_MODELS (some name) = true := by
  intro litellm name hne hex
  have hany : VISION_MODELS.any (fun v => pyStartsWith (pyLower name) (pyLower v)) = true :=
    List.any_eq_true.mpr hex
  cases hl : litellm name <;> simp [supports_vision, hne, hl, hany]

/-- C8 witness: a dated `gpt-4o` model name matches the `gpt-4o` table
entry even when the external check raises. -/
theorem supports_vision_prefix_fallback_witness :
    ("GPT-4o-2024-08" : String) ≠ ""
    ∧ (∃ v, v ∈ VISION_MODELS ∧ pyStartsWith (pyLower "GPT-4o-2024-08") (pyLower v) = true)
    ∧ supports_vision (fun _ => LiteLLMResult.raised) VISION_MODELS (some "GPT-4o-2024-08")
        = true :=
  ⟨by decide, ⟨"gpt-4o", by decide, by decide⟩,
    supports_vision_prefix_fallback (fun _ => LiteLLMResult.raised) "GPT-4o-2024-08"
      (by decide) ⟨"gpt-4o", by decide, by decide⟩⟩

/-- C10: registering a prefix with `add_vision_model` makes every
non-empty name starting with it (case-insensitively) vision capable, and
never turns a previously true `supports_vision` result into false. -/
theorem add_vision_model_monotone :
    ∀ (litellm : String → LiteLLMResult) (table : List String) (p : String),
      (∀ s : String, s ≠ "" → pyStartsWith (pyLower s) (pyLower p) = true →
          supports_vision litellm (add_vision_model p table) (some s) = true)
      ∧ (∀ m : Option String, supports_vision litellm table m = true →
          supports_vision litellm (add_vision_model p table) m = true) := by
  intro litellm table p
  constructor
  · intro s hne hpre
    cases hl : litellm s <;>
      simp [supports_vision, add_vision_model, hne, hl, List.any_cons, hpre]
  · intro m h
    match m with
    | none => simp [supports_vision] at h
    | some name =>
        by_cases hne : name = ""
        · simp [supports_vision, hne] at h
        · cases hl : litellm name <;>
            simp_all [supports_vision, add_vision_model, List.any_cons]

/-- C10 witness: after registering `my-model`, the name `My-Model-v2` is
vision capable even though the external check says no. -/
theorem add_vision_model_monotone_witness :
    ("My-Model-v2" : String) ≠ ""
    ∧ pyStartsWith (pyLower "My-Model-v2") (pyLower "my-model") = true
    ∧ supports_vision (fun _ => LiteLLMResult.no) (add_vision_model "my-model" [])
        (some "My-Model-v2") = true :=
  ⟨by decide, by decide,
    (add_vision_model_monotone (fun _ => LiteLLMResult.no) [] "my-model").1
      "My-Model-v2" (by decide) (by decide)⟩

/-- C9: the loader returns the dataset unchanged when the existing count
already matches, raises the descriptive count-mismatch error when the
existing count is non-zero and differs (before any insertion), raises
the descriptive no-items error when no source item survives per-item
processing, and an item fails processing exactly when it has no image —
a failure that is caught and skipped, never propagated. -/
theorem load_dhpr_dataset_error_cases :
    ∀ (encode : String → String) (nb_items : Nat) (test_mode : Bool) (existing : Nat)
      (source : List DhprRawItem),
      (existing = (if test_mode then 5 else nb_items) →
        load_dhpr_dataset encode nb_items test_mode existing source = .returnedUnchanged)
      ∧ (existing ≠ (if test_mode then 5 else nb_items) → existing ≠ 0 →
        load_dhpr_dataset encode nb_items test_mode existing source
          = .countMismatchError existing (if test_mode then 5 else nb_items))
      ∧ (existing = 0 → existing ≠ (if test_mode then 5 else nb_items) →
        (∀ it ∈ source.take (if test_mode then 5 else nb_items), it.image = none) →
        load_dhpr_dataset encode nb_items test_mode existing source = .noItemsError)
      ∧ (∀ it : DhprRawItem,
          (process_dhpr_item encode it).toOption = none ↔ it.image = none) := by
  intro encode nb test existing source
  refine ⟨?_, ?_, ?_, ?_⟩
  · intro h; simp [load_dhpr_dataset, h]
  · intro h1 h2; simp [load_dhpr_dataset, h1, h2]
  · intro h0 hne hall
    subst h0
    have hdata : (source.take (if test then 5 else nb)).filterMap
        (fun it => (process_dhpr_item encode it).toOption) = [] := by
      rw [List.filterMap_eq_nil_iff]
      intro it hit
      simp [process_dhpr_item, hall it hit, Except.toOption]
    simp [load_dhpr_dataset, hne, hdata]
  · intro it
    cases hi : it.image <;> simp [process_dhpr_item, hi, Except.toOption]

/-- C9 witness: a dataset holding 3 items when 50 are expected triggers
the count-mismatch error, and an item with no image fails processing. -/
theorem load_dhpr_dataset_error_cases_witness :
    (3 : Nat) ≠ (if false then 5 else 50)
    ∧ (3 : Nat) ≠ 0
    ∧ load_dhpr_dataset id 50 false 3 [] = .countMismatchError 3 50
    ∧ ((process_dhpr_item id ⟨"q1", "question", "hazard", none⟩).toOption = none ↔
        (⟨"q1", "question", "hazard", none⟩ : DhprRawItem).image = none) :=
  ⟨by decide, by decide,
    (load_dhpr_dataset_error_cases id 50 false 3 []).2.1 (by decide) (by decide),
    (load_dhpr_dataset_error_cases id 50 false 3 []).2.2.2 ⟨"q1", "question", "hazard", none⟩⟩

/-- Rendering the vision output of a sequence whose text-bearing fields
are fixed points of substitution reproduces the same rendered parts. -/
theorem rerender_fixed (vars : List (String × String)) (tt : String) :
    ∀ items : List RawItem, items.all (itemFixed vars tt) = true →
      ((items.filterMap (renderItem vars tt)).map (fun p =>
          match p with
          | ContentPart.text t => RawItem.textPart t
          | ContentPart.image u d => RawItem.imagePart u d)).filterMap
        (renderItem vars tt)
        = items.filterMap (renderItem vars tt)
  | [], _ => rfl
  | it :: items, h => by
      simp only [List.all_cons, Bool.and_eq_true] at h
      have ih := rerender_fixed vars tt items h.2
      cases it with
      | invalid => simpa [List.filterMap_cons, renderItem] using ih
      | textPart t =>
          have hf : substitute t vars tt = t := by
            have h1 := h.1
            simpa [itemFixed] using h1
          simp [List.filterMap_cons, renderItem, hf, ih]
      | imagePart u d =>
          have hf : substitute u vars tt = u := by
            have h1 := h.1
            simpa [itemFixed] using h1
          simp [List.filterMap_cons, renderItem, hf, ih]

/-- C4: rendering a plain string applies `substitute` directly with no
vision branching; under mustache, on any well-formed token view of the
text, every placeholder whose name matches a key of the variable map is
replaced (braces included) by that key value and every unmatched
placeholder is left verbatim; and the concrete greeting renders to
`Hello World`. -/
theorem render_plain_string_substitutes :
    (∀ (s : String) (vars : List (String × String)) (sv : Bool) (tt : String),
        render_message_content (.str s) vars sv tt = .str (substitute s vars tt))
    ∧ (∀ (vars : List (String × String)) (toks : List Tok), wfToks toks = true →
        substituteMustache (String.mk (rawChars toks)) vars = String.mk (subChars vars toks))
    ∧ render_message_content (.str "Hello \x7b\x7bname\x7d\x7d") [("name", "World")]
        false "mustache"
        = .str "Hello World" := by
  refine ⟨fun s vars sv tt => rfl, ?_, by decide⟩
  intro vars toks h
  simp [substituteMustache, scanSub_tokens vars toks h]

/-- C4 witness: the token view of `Hello ` followed by the placeholder
`name` is well formed, and its substitution replaces the placeholder
with `World`. -/
theorem render_plain_string_substitutes_witness :
    wfToks [Tok.lit "Hello ", Tok.ph "name"] = true
    ∧ substituteMustache (String.mk (rawChars [Tok.lit "Hello ", Tok.ph "name"]))
        [("name", "World")]
      = String.mk (subChars [("name", "World")] [Tok.lit "Hello ", Tok.ph "name"]) :=
  ⟨by decide,
    render_plain_string_substitutes.2.1 [("name", "World")]
      [Tok.lit "Hello ", Tok.ph "name"] (by decide)⟩

/-- C6 counterexample: a structured content whose two text fields are
each fixed points of substitution, rendered without vision, flattens to
a string in which the double-newline join has created a new matched
placeholder spanning the fragment boundary, so rendering the output
again differs from rendering once. -/
theorem render_idempotent_counterexample :
    contentFixed [("x\n\nme", "BOOM")] "mustache"
      (.parts [RawItem.textPart "\x7b\x7bx", RawItem.textPart "me\x7d\x7d"]) = true
    ∧ render_message_content
        (reinject (render_message_content
          (.parts [RawItem.textPart "\x7b\x7bx", RawItem.textPart "me\x7d\x7d"])
          [("x\n\nme", "BOOM")] false "mustache"))
        [("x\n\nme", "BOOM")] false "mustache"
      ≠ render_message_content
          (.parts [RawItem.textPart "\x7b\x7bx", RawItem.textPart "me\x7d\x7d"])
          [("x\n\nme", "BOOM")] false "mustache" :=
  ⟨by decide, by decide⟩

/-- C6 amended: rendering is idempotent on fixed points of substitution
for plain-string content with any vision flag and for structured content
when vision is supported; the non-vision flattening path is excluded,
since joining fragments can create a new placeholder spanning a fragment
boundary. -/
theorem render_idempotent_on_fixed :
    ∀ (c : MessageContent) (vars : List (String × String)) (tt : String) (sv : Bool),
      contentFixed vars tt c = true →
      (sv = true ∨ ∃ s, c = .str s) →
      render_message_content (reinject (render_message_content c vars sv tt)) vars sv tt
        = render_message_content c vars sv tt := by
  intro c vars tt sv hfix hcase
  cases c with
  | str s =>
      have hs : substitute s vars tt = s := by simpa [contentFixed] using hfix
      simp [render_message_content, reinject, hs]
  | parts items =>
      rcases hcase with hsv | ⟨s, hs⟩
      · subst hsv
        have hfix2 : items.all (itemFixed vars tt) = true := by
          simpa [contentFixed] using hfix
        simp [render_message_content, reinject, rerender_fixed vars tt items hfix2]
      · exact (MessageContent.noConfusion hs)

/-- C6 witness: a fixed two-part structured content rendered with vision
renders to the same output when rendered again. -/
theorem render_idempotent_on_fixed_witness :
    contentFixed [] "mustache"
      (.parts [RawItem.textPart "hi", RawItem.imagePart "u" (some "high")]) = true
    ∧ render_message_content (reinject (render_message_content
        (.parts [RawItem.textPart "hi", RawItem.imagePart "u" (some "high")])
        [] true "mustache")) [] true "mustache"
      = render_message_content
          (.parts [RawItem.textPart "hi", RawItem.imagePart "u" (some "high")])
          [] true "mustache" :=
  ⟨by decide,
    render_idempotent_on_fixed
      (.parts [RawItem.textPart "hi", RawItem.imagePart "u" (some "high")])
      [] "mustache" true (by decide) (Or.inl rfl)⟩

end Opik
